import Mathlib

/-!
Verification of the audio-streaming control layer of `discordflow/utils.py`.

The Python source is shallowly embedded: byte strings become `List Nat`
(each entry a byte value), machine integers become `Nat`/`Int`, Python
exceptions become an explicit error type threaded through `Except`, and
async generators over finite streams become functions on `List`s (the
event loop only interleaves them; their per-element data flow is
sequential).  Wall-clock sleeps (`asyncio.sleep`) affect timing only and
are elided; where a claim is about timing-dependent control flow
(timeouts, cancellation) it is modelled with an explicit oracle input.
-/

/-- Python exceptions that the embedded code can raise.  `valueError` is
the `ValueError` used for incompatible audio formats (the spec's
FormatMismatch); `runtimeAlready` is the `RuntimeError` raised by
`BackgroundTask.start` (the spec's AlreadyRunning). -/
inductive PyErr where
  | nameError
  | attributeError
  | valueError
  | audioopError
  | waveError
  | structError
  | runtimeAlready
  | cancelledError
  deriving DecidableEq, Repr

/-- Model of `@dataclass class Audio`: channels, sample width (bytes), rate (Hz),
and raw interleaved PCM bytes. -/
structure Audio where
  channels : Nat
  width : Nat
  rate : Nat
  data : List Nat
  deriving DecidableEq, Repr

/-- Model of `Audio.framewidth`: `self.channels * self.width`. -/
def Audio.framewidth (a : Audio) : Nat := a.channels * a.width

/-- Model of `Audio.__len__`: `len(self.data) // self.framewidth` (frames).
Nat division returns 0 on a zero framewidth where Python would raise
ZeroDivisionError; all theorems assume a positive framewidth. -/
def Audio.length (a : Audio) : Nat := a.data.length / a.framewidth

/-- Model of `Audio.__bool__`: `len(self) > 0`. -/
def Audio.toBool (a : Audio) : Bool := 0 < a.length

/-- Model of `Audio.duration`: `len(self) / self.rate`, exact in ℚ
(Python uses float division). -/
def Audio.duration (a : Audio) : ℚ := (a.length : ℚ) / (a.rate : ℚ)

/-- Model of `Audio.clone`: same format, different data. -/
def Audio.clone (a : Audio) (d : List Nat) : Audio :=
  { channels := a.channels, width := a.width, rate := a.rate, data := d }

/-- Model of `Audio.__add__`: raises ValueError ("Could not add incompatible
Audio") when channels, width or rate differ, otherwise concatenates the
raw data. -/
def Audio.add (self other : Audio) : Except PyErr Audio :=
  if other.channels ≠ self.channels ∨ other.width ≠ self.width ∨ other.rate ≠ self.rate then
    .error .valueError
  else
    .ok (self.clone (self.data ++ other.data))

/-!
## `audioop.add` and `Audio.combine`

`Audio.combine` is `self.clone(data=audioop.add(self.data, other.data,
self.width))`.  CPython's `audioop.add` checks that the width is 1, 2, 3
or 4, that the first fragment is a whole number of samples, and that both
fragments have the same byte length; it never looks at channels or rate.
Samples are signed machine integers in native (little-endian) byte order;
addition saturates at the width's signed range.
-/

/-- Value of a little-endian byte list (least significant byte first). -/
def leVal (bs : List Nat) : Nat := bs.foldr (fun b acc => b + 256 * acc) 0

/-- Reinterpret an unsigned `width`-byte value as a signed (two's
complement) sample, as audioop's GETRAWSAMPLE does. -/
def toSigned (width n : Nat) : Int :=
  if n < 2 ^ (8 * width - 1) then (n : Int) else (n : Int) - 2 ^ (8 * width)

/-- audioop's saturation: clamp to the signed range of a `width`-byte
sample (clipping, not wraparound). -/
def clampSample (width : Nat) (v : Int) : Int :=
  max (-(2 ^ (8 * width - 1))) (min v (2 ^ (8 * width - 1) - 1))

/-- Encode a signed sample as `width` little-endian bytes (two's
complement), as audioop's SETRAWSAMPLE does. -/
def leEncode (width : Nat) (v : Int) : List Nat :=
  (List.range width).map (fun i => (v % (2 ^ (8 * width))).toNat / 2 ^ (8 * i) % 256)

/-- The per-sample loop of `audioop.add`.  The fuel argument only bounds
the recursion; `d1.length` steps always suffice because each step
consumes `width ≥ 1` bytes. -/
def addSamplesF : Nat → Nat → List Nat → List Nat → List Nat
  | 0, _, _, _ => []
  | fuel + 1, width, d1, d2 =>
    match d1 with
    | [] => []
    | _ :: _ =>
      leEncode width (clampSample width
          (toSigned width (leVal (d1.take width)) + toSigned width (leVal (d2.take width)))) ++
        addSamplesF fuel width (d1.drop width) (d2.drop width)

/-- Model of `audioop.add(fragment1, fragment2, width)`. -/
def audioop_add (d1 d2 : List Nat) (width : Nat) : Except PyErr (List Nat) :=
  if ¬(width = 1 ∨ width = 2 ∨ width = 3 ∨ width = 4) then
    .error .audioopError         -- "Size should be 1, 2, 3 or 4"
  else if d1.length % width ≠ 0 then
    .error .audioopError         -- "not a whole number of frames"
  else if d1.length ≠ d2.length then
    .error .audioopError         -- "Lengths should be the same"
  else
    .ok (addSamplesF d1.length width d1 d2)

/-- Model of `Audio.combine`: `self.clone(data=audioop.add(self.data, other.data,
self.width))` — note: no channels/width/rate compatibility check. -/
def Audio.combine (self other : Audio) : Except PyErr Audio :=
  (audioop_add self.data other.data self.width).map self.clone

/-!
## `rate_limit`

```python
async def rate_limit(audio_iter):
    when_to_wake = time.perf_counter()
    async for packet in audio_iter:
        yield packet
        when_to_wake += packet.duration
        to_sleep = when_to_wake - time.perf_counter()
        await asyncio.sleep(to_sleep)
    if packet:
        yield packet
```

Only emission values are modelled: `asyncio.sleep` delays emission but
never fails (a negative argument is a no-op sleep).  The loop variable
`packet` survives the `for` loop in Python; if the loop body never ran it
was never bound and `if packet` raises NameError.
-/

/-- The `async for` loop of `rate_limit`: emits every packet in order and
returns the final binding of the loop variable `packet` (`none` when the
loop body never ran). -/
def rate_limit_loop : List Audio → Option Audio → List Audio × Option Audio
  | [], last_packet => ([], last_packet)
  | p :: rest, _ =>
      let step := rate_limit_loop rest (some p)
      (p :: step.1, step.2)

/-- Model of `rate_limit`: the full sequence of values an exhaustive consumer
receives, or the exception consuming raises. -/
def rate_limit (packets : List Audio) : Except PyErr (List Audio) :=
  let step := rate_limit_loop packets none
  match step.2 with
  | none => .error .nameError
  | some p => .ok (step.1 ++ if p.toBool then [p] else [])

/-!
## `size_limit`

```python
async def size_limit(audio_iter, size):
    buf = None
    async for packet in audio_iter:
        buf = buf + packet if buf else packet
        while len(buf) >= size:
            yield buf[:size]
            buf = buf[size:]
    if buf:
        yield buf
```

Slicing is frame-indexed (`Audio.__getitem__` multiplies the indices by
the framewidth before applying them to the raw bytes), so `buf[:size]`
takes and `buf[size:]` drops `size * framewidth` bytes.  The inner
`while` terminates only when `size * framewidth > 0` (Python would spin
forever on a zero chunk size, or raise ZeroDivisionError in `len` on a
zero framewidth); the model guards the loop with that condition and the
theorems assume a positive chunk size and framewidth.
-/

/-- Inner `while` loop of `size_limit`, fuelled (each iteration removes
`size * framewidth > 0` bytes, so `length + 1` steps always suffice).
Returns the chunks it yields and the final remainder `buf`. -/
def size_limit_whileF : Nat → Nat → Audio → List Audio × Audio
  | 0, _, buf => ([], buf)
  | fuel + 1, size, buf =>
    if 0 < size * buf.framewidth ∧ size ≤ buf.length then
      let hd := buf.clone (buf.data.take (size * buf.framewidth))
      let tl := buf.clone (buf.data.drop (size * buf.framewidth))
      let step := size_limit_whileF fuel size tl
      (hd :: step.1, step.2)
    else ([], buf)

/-- Inner `while` loop of `size_limit` with adequate fuel. -/
def size_limit_while (size : Nat) (buf : Audio) : List Audio × Audio :=
  size_limit_whileF (buf.data.length + 1) size buf

/-- Body of `size_limit`: the `async for` loop with the running
remainder `buf` (`None` before the first packet); `Audio.__add__` can
raise, which propagates to the consumer. -/
def size_limit_go (size : Nat) (buf : Option Audio) :
    List Audio → Except PyErr (List Audio)
  | [] =>
    .ok (match buf with
      | some b => if b.toBool then [b] else []
      | none => [])
  | p :: rest => do
    let b ← match buf with
      | some b0 => if b0.toBool then b0.add p else .ok p
      | none => .ok p
    let step := size_limit_while size b
    let tail ← size_limit_go size (some step.2) rest
    .ok (step.1 ++ tail)

/-- Model of `size_limit(audio_iter, size)` on a finite input sequence. -/
def size_limit (packets : List Audio) (size : Nat) : Except PyErr (List Audio) :=
  size_limit_go size none packets

/-- Greedy chunking of a byte string into `k`-byte pieces plus a final
shorter piece when a nonempty remainder is left (fuelled).  This is the
pure specification the streaming transform is proved equal to. -/
def chunkBytesF : Nat → Nat → List Nat → List (List Nat)
  | 0, _, d => if d.isEmpty then [] else [d]
  | fuel + 1, k, d =>
    if 0 < k ∧ k ≤ d.length then d.take k :: chunkBytesF fuel k (d.drop k)
    else if d.isEmpty then [] else [d]

/-- Greedy chunking with adequate fuel. -/
def chunkBytes (k : Nat) (d : List Nat) : List (List Nat) :=
  chunkBytesF (d.length + 1) k d

/-!
## `BackgroundTask`

```python
class BackgroundTask:
    def __init__(self):
        self.task = None

    async def wrap(self, coro):
        try:
            await coro
        except Exception as exc:
            logger.exception(...)
            raise

    def start(self, coro):
        if self.task is not None:
            raise RuntimeError(...)
        self.task = asyncio.create_task(self.wrap(coro))

    async def stop(self):
        task, self.task = self.task, None
        if task.done():
            return task.result()
        else:
            task.cancel()
            with suppress(asyncio.CancelledError):
                await task
```

State-machine model: the single task slot holds the supervised task's
status.  `wrap` only logs and re-raises non-cancellation exceptions
(CancelledError is a BaseException and passes through), so the wrapped
task's outcome equals the coroutine's.  The cancel request and the
subsequent await performed by `stop` are recorded as an event trace,
since wall-clock waiting has no counterpart in the model.
-/

/-- Reaction of a still-pending coroutine when its cancellation is
awaited: it unwinds with an exception (normally `cancelledError`), or it
swallows the cancellation and completes with a value. -/
inductive CancelBehavior (α : Type) where
  | raises (e : PyErr)
  | completes (v : α)
  deriving DecidableEq, Repr

/-- Status of the asyncio task held in the slot. -/
inductive TaskStatus (α : Type) where
  | pending (onCancel : CancelBehavior α)
  | finishedOk (v : α)
  | finishedErr (e : PyErr)
  deriving DecidableEq, Repr

/-- Scheduling actions taken on the held task. -/
inductive Ev where
  | cancelled
  | awaited
  deriving DecidableEq, Repr

/-- Model of a `BackgroundTask` object: its single task slot. -/
structure BackgroundTask (α : Type) where
  task : Option (TaskStatus α)
  deriving DecidableEq, Repr

/-- Model of `BackgroundTask.start`: raises RuntimeError (the spec's
AlreadyRunning) when the slot is occupied, else stores the started task,
whose eventual behaviour is described by `coro`. -/
def BackgroundTask.start {α : Type} (bt : BackgroundTask α) (coro : TaskStatus α) :
    Except PyErr (BackgroundTask α) :=
  match bt.task with
  | some _ => .error .runtimeAlready
  | none => .ok ⟨some coro⟩

/-- Model of `BackgroundTask.stop`: returns the state after the call, the
cancel/await events performed, and the call's outcome — `.ok` the value
returned (Python returns `None`, modelled `none`, when the pending branch
falls through), `.error` the exception raised to the caller.  The slot is
emptied before anything else, and `task.done()` on an empty slot is an
attribute access on `None`. -/
def BackgroundTask.stop {α : Type} (bt : BackgroundTask α) :
    BackgroundTask α × List Ev × Except PyErr (Option α) :=
  match bt.task with
  | none => (⟨none⟩, [], .error .attributeError)
  | some (.finishedOk v) => (⟨none⟩, [], .ok (some v))
  | some (.finishedErr e) => (⟨none⟩, [], .error e)
  | some (.pending (.raises e)) =>
      if e = .cancelledError then (⟨none⟩, [.cancelled, .awaited], .ok none)
      else (⟨none⟩, [.cancelled, .awaited], .error e)
  | some (.pending (.completes _)) => (⟨none⟩, [.cancelled, .awaited], .ok none)

/-!
## `AsyncTimedIterator`

```python
async def __anext__(self):
    task = self.task or asyncio.create_task(self._iterator.__anext__())
    self.task = None
    try:
        return await asyncio.wait_for(asyncio.shield(task), self.timeout)
    except asyncio.TimeoutError:
        self.task = task
        return self._sentinel
```

Model: the underlying iterator is the list of elements it has yet to
produce; a fetch task is identified by the id handed out when
`create_task` was called (`nextId` counts those calls, so an unchanged
`nextId` means no new fetch was started).  Whether a fetch completes
within the timeout is an oracle input per call.  On timeout, `wait_for`
cancels only the shield, so the fetch keeps running and is stored.
-/

/-- Model of an `AsyncTimedIterator` object. -/
structure AsyncTimedIterator (α : Type) where
  remaining : List α
  task : Option Nat
  nextId : Nat
  deriving DecidableEq, Repr

/-- Outcome of one timed advance. -/
inductive TimedNext (α : Type) where
  | sentinel
  | element (a : α)
  | stopIteration
  deriving DecidableEq, Repr

/-- Projection used to collect the real elements among advance
outcomes. -/
def TimedNext.elem? {α : Type} : TimedNext α → Option α
  | .element a => some a
  | _ => none

/-- Model of `AsyncTimedIterator.__anext__`, with the oracle
`completesInTime` telling whether the awaited fetch finished within
`self.timeout`. -/
def AsyncTimedIterator.anext {α : Type} (s : AsyncTimedIterator α)
    (completesInTime : Bool) : AsyncTimedIterator α × TimedNext α :=
  let tid := match s.task with
    | some t => t
    | none => s.nextId
  let nid := match s.task with
    | some _ => s.nextId
    | none => s.nextId + 1
  if completesInTime then
    match s.remaining with
    | [] => (⟨[], none, nid⟩, .stopIteration)
    | x :: rest => (⟨rest, none, nid⟩, .element x)
  else
    (⟨s.remaining, some tid, nid⟩, .sentinel)

/-- Run a sequence of `__anext__` calls, one oracle bit each. -/
def AsyncTimedIterator.run {α : Type} (s : AsyncTimedIterator α) :
    List Bool → AsyncTimedIterator α × List (TimedNext α)
  | [] => (s, [])
  | b :: bs =>
    let step := s.anext b
    let rest := step.1.run bs
    (rest.1, step.2 :: rest.2)

/-!
## `CancellableAsyncGenerator`

```python
class CancellableAsyncGenerator:
    def __init__(self, gen):
        self.gen = gen

    async def aclose(self):
        if self.gen is None:
            return
        task = self.task or asyncio.create_task(self.gen.__anext__())
        self.task = None
        task.cancel()
        self.gen = None
        with suppress(asyncio.CancelledError):
            await task

    async def __anext__(self):
        if self.gen:
            self.task = asyncio.create_task(self.gen.__anext__())
            try:
                return await self.task
            except asyncio.CancelledError:
                if self.gen is None:
                    raise StopAsyncIteration
                else:
                    raise
            finally:
                self.task = None
        else:
            raise StopAsyncIteration
```

Note that `__init__` assigns only `self.gen`: the `task` attribute does
not exist until the first `__anext__` assigns it, so the model's `task`
field is doubly optional — the outer `none` meaning "attribute missing"
(reading it raises AttributeError).
-/

/-- Model of a `CancellableAsyncGenerator` object: the wrapped generator
(as the elements it has yet to yield; `none` once closed) and the `task`
attribute. -/
structure CancellableAsyncGenerator (α : Type) where
  gen : Option (List α)
  task : Option (Option Nat)
  deriving DecidableEq, Repr

/-- Model of `CancellableAsyncGenerator.aclose`. -/
def CancellableAsyncGenerator.aclose {α : Type} (s : CancellableAsyncGenerator α) :
    Except PyErr (CancellableAsyncGenerator α × List Ev) :=
  match s.gen with
  | none => .ok (s, [])
  | some _ =>
    match s.task with
    | none => .error .attributeError
    | some _ => .ok (⟨none, some none⟩, [.cancelled, .awaited])

/-- Model of `CancellableAsyncGenerator.__anext__`: the returned
`Except`'s `.ok none` is StopAsyncIteration, the end-of-sequence
signal. -/
def CancellableAsyncGenerator.anext {α : Type} (s : CancellableAsyncGenerator α) :
    CancellableAsyncGenerator α × Except PyErr (Option α) :=
  match s.gen with
  | none => (s, .ok none)
  | some [] => (⟨some [], some none⟩, .ok none)
  | some (x :: rest) => (⟨some rest, some none⟩, .ok (some x))

/-!
## WAV serialisation (`Audio.to_wav` / `Audio.from_wav`)

The source writes and reads through the standard-library wave module over
an in-memory file.  Writing (`to_wav`) validates channels, width and rate
(`setnchannels`, `setsampwidth`, `setframerate`), then emits a RIFF file:
the RIFF header with total size, the 16-byte PCM fmt chunk (format tag 1,
channels, frame rate, byte rate, block align, bits per sample, each a
little-endian field), and the data chunk; on close the header sizes are
patched to the bytes actually written, and struct.pack raises when a
field exceeds its 2- or 4-byte range (modelled as the bound checks).
Reading (`Audio.load` via `from_wav`) checks the RIFF and WAVE magic,
scans the chunks inside the RIFF payload until the data chunk — the fmt
chunk must come first — decodes channels, sample width (bits rounded up
to bytes) and rate from the fmt chunk, and `readframes(2 ** 32)` returns
the data chunk's bytes.
-/

/-- Little-endian encoding of a 2-byte field, as struct.pack emits it. -/
def u16le (n : Nat) : List Nat := [n % 256, n / 256 % 256]

/-- Little-endian encoding of a 4-byte field, as struct.pack emits it. -/
def u32le (n : Nat) : List Nat :=
  [n % 256, n / 256 % 256, n / 65536 % 256, n / 16777216 % 256]

/-- ASCII bytes of the RIFF magic. -/
def riffTag : List Nat := [82, 73, 70, 70]

/-- ASCII bytes of the WAVE form type. -/
def waveTag : List Nat := [87, 65, 86, 69]

/-- ASCII bytes of the fmt chunk name (with trailing space). -/
def fmtTag : List Nat := [102, 109, 116, 32]

/-- ASCII bytes of the data chunk name. -/
def dataTag : List Nat := [100, 97, 116, 97]

/-- Content of the 16-byte PCM fmt chunk the wave writer emits: format
tag 1, channels, frame rate, byte rate, block align, bits per sample. -/
def fmtPayload (a : Audio) : List Nat :=
  u16le 1 ++ (u16le a.channels ++ (u32le a.rate ++
    (u32le (a.channels * a.rate * a.width) ++ (u16le (a.channels * a.width) ++
      u16le (a.width * 8)))))

/-- Bytes of the finished WAV file (header sizes already patched to the
actual data length, as `wave.close` leaves them). -/
def wavBytes (a : Audio) : List Nat :=
  riffTag ++ (u32le (36 + a.data.length) ++ (waveTag ++ (fmtTag ++ (u32le 16 ++
    (fmtPayload a ++ (dataTag ++ (u32le a.data.length ++ a.data)))))))

/-- Model of `Audio.to_wav`: the wave writer's own validation, the
struct.pack range checks, then the serialised bytes. -/
def Audio.to_wav (a : Audio) : Except PyErr (List Nat) :=
  if a.channels = 0 then .error .waveError
  else if a.width = 0 ∨ 4 < a.width then .error .waveError
  else if a.rate = 0 then .error .waveError
  else if 65536 ≤ a.channels ∨ 65536 ≤ a.channels * a.width ∨
      4294967296 ≤ a.rate ∨ 4294967296 ≤ a.channels * a.rate * a.width ∨
      4294967296 ≤ 36 + a.data.length then .error .structError
  else .ok (wavBytes a)

/-- Value of a 2-byte little-endian field at offset `i` (out-of-range
bytes read as 0; the writer's output is always long enough). -/
def readU16 (bs : List Nat) (i : Nat) : Nat := bs.getD i 0 + 256 * bs.getD (i + 1) 0

/-- Value of a 4-byte little-endian field at offset `i`. -/
def readU32 (bs : List Nat) (i : Nat) : Nat := readU16 bs i + 65536 * readU16 bs (i + 2)

/-- Chunk-scanning loop of the wave reader, fuelled (each step consumes a
chunk header of 8 bytes, so `length` steps suffice).  A fmt chunk records
channels, sample width `(bits + 7) / 8` and rate and skips to the next
chunk (chunks are padded to even length); the data chunk — rejected if no
fmt chunk preceded it — ends the scan, returning the buffer that
`readframes(2 ** 32)` produces.  Running out of bytes or fuel is the
reader's "fmt chunk and/or data chunk missing" error. -/
def parseChunksF : Nat → Option (Nat × Nat × Nat) → List Nat → Except PyErr Audio
  | 0, _, _ => .error .waveError
  | fuel + 1, fmt, bs =>
    if bs.length < 8 then .error .waveError
    else
      if bs.take 4 = fmtTag then
        if readU32 bs 4 < 16 then .error .structError
        else if readU16 ((bs.drop 8).take (readU32 bs 4)) 0 ≠ 1 then .error .waveError
        else
          parseChunksF fuel
            (some (readU16 ((bs.drop 8).take (readU32 bs 4)) 2,
              (readU16 ((bs.drop 8).take (readU32 bs 4)) 14 + 7) / 8,
              readU32 ((bs.drop 8).take (readU32 bs 4)) 4))
            (bs.drop (8 + readU32 bs 4 + readU32 bs 4 % 2))
      else if bs.take 4 = dataTag then
        match fmt with
        | none => .error .waveError
        | some (ch, sw, fr) =>
            .ok (Audio.mk ch sw fr (((bs.drop 8).take (readU32 bs 4)).take
              (4294967296 * (ch * sw))))
      else parseChunksF fuel fmt (bs.drop (8 + readU32 bs 4 + readU32 bs 4 % 2))

/-- Model of `Audio.from_wav` (`Audio.load` on an in-memory file): check
the RIFF magic, limit reading to the RIFF payload, check the WAVE form
type, then scan the chunks. -/
def Audio.from_wav (bs : List Nat) : Except PyErr Audio :=
  if bs.take 4 ≠ riffTag then .error .waveError
  else
    if ((bs.drop 8).take (readU32 bs 4)).take 4 ≠ waveTag then .error .waveError
    else
      parseChunksF (((bs.drop 8).take (readU32 bs 4)).drop 4).length none
        (((bs.drop 8).take (readU32 bs 4)).drop 4)

/-!
## Theorems
-/

/-- Helper: `stop` always leaves the task slot idle, whatever state it
was called in. -/
theorem BackgroundTask.stop_slot_idle {α : Type} (bt : BackgroundTask α) :
    bt.stop.1 = ⟨none⟩ := by
  rcases bt with ⟨t⟩
  match t with
  | none => rfl
  | some (.finishedOk v) => rfl
  | some (.finishedErr e) => rfl
  | some (.pending (.completes v)) => rfl
  | some (.pending (.raises e)) =>
    unfold BackgroundTask.stop
    dsimp only
    split <;> rfl

/-- C6: starting a `BackgroundTask` whose slot is occupied raises
AlreadyRunning; stopping while the operation is unfinished cancels it and
awaits the cancellation without raising the cancellation signal (other
failures do propagate); stopping after the operation finished returns its
value or re-raises its failure without cancelling anything; and in every
case the slot is left idle. -/
theorem background_task_lifecycle (α : Type) (s coro : TaskStatus α) (v : α)
    (e : PyErr) (he : e ≠ .cancelledError) :
    (BackgroundTask.start ⟨some s⟩ coro = .error .runtimeAlready) ∧
    (BackgroundTask.stop (⟨some (.pending (.raises .cancelledError))⟩ : BackgroundTask α) =
      (⟨none⟩, [.cancelled, .awaited], .ok none)) ∧
    (BackgroundTask.stop (⟨some (.pending (.completes v))⟩ : BackgroundTask α) =
      (⟨none⟩, [.cancelled, .awaited], .ok none)) ∧
    (BackgroundTask.stop (⟨some (.pending (.raises e))⟩ : BackgroundTask α) =
      (⟨none⟩, [.cancelled, .awaited], .error e)) ∧
    (BackgroundTask.stop (⟨some (.finishedOk v)⟩ : BackgroundTask α) =
      (⟨none⟩, [], .ok (some v))) ∧
    (BackgroundTask.stop (⟨some (.finishedErr e)⟩ : BackgroundTask α) =
      (⟨none⟩, [], .error e)) ∧
    (∀ bt : BackgroundTask α, bt.stop.1 = ⟨none⟩) := by
  refine ⟨rfl, by simp [BackgroundTask.stop], rfl, ?_, rfl, rfl, BackgroundTask.stop_slot_idle⟩
  simp [BackgroundTask.stop, he]

/-- Witness for `background_task_lifecycle` at concrete instances. -/
theorem background_task_lifecycle_witness :
    PyErr.valueError ≠ PyErr.cancelledError ∧
    ((BackgroundTask.start ⟨some (.finishedOk 0)⟩ (.finishedOk 1) = .error .runtimeAlready) ∧
    (BackgroundTask.stop (⟨some (.pending (.raises .cancelledError))⟩ : BackgroundTask Nat) =
      (⟨none⟩, [.cancelled, .awaited], .ok none)) ∧
    (BackgroundTask.stop (⟨some (.pending (.completes 2))⟩ : BackgroundTask Nat) =
      (⟨none⟩, [.cancelled, .awaited], .ok none)) ∧
    (BackgroundTask.stop (⟨some (.pending (.raises .valueError))⟩ : BackgroundTask Nat) =
      (⟨none⟩, [.cancelled, .awaited], .error .valueError)) ∧
    (BackgroundTask.stop (⟨some (.finishedOk 2)⟩ : BackgroundTask Nat) =
      (⟨none⟩, [], .ok (some 2))) ∧
    (BackgroundTask.stop (⟨some (.finishedErr .valueError)⟩ : BackgroundTask Nat) =
      (⟨none⟩, [], .error .valueError)) ∧
    (∀ bt : BackgroundTask Nat, bt.stop.1 = ⟨none⟩)) :=
  ⟨by decide, background_task_lifecycle Nat (.finishedOk 0) (.finishedOk 1) 2 .valueError
    (by decide)⟩

/-- C10: calling `stop` on an idle `BackgroundTask` (never started, or
already stopped) raises AttributeError — the slot holds `None` when
`task.done()` is evaluated — so `stop` is not idempotent. -/
theorem stop_idle_attribute_error :
    (BackgroundTask.stop (⟨none⟩ : BackgroundTask Unit) =
      (⟨none⟩, [], .error .attributeError)) ∧
    (∀ s : TaskStatus Unit,
      BackgroundTask.stop (BackgroundTask.stop (⟨some s⟩ : BackgroundTask Unit)).1 =
        (⟨none⟩, [], .error .attributeError)) := by
  refine ⟨rfl, fun s => ?_⟩
  rw [BackgroundTask.stop_slot_idle]
  rfl

/-- Helper: running `AsyncTimedIterator` calls from any state emits, as
real elements, exactly the next `k` underlying elements in order, where
`k` is the number of in-time completions; the rest of the underlying
sequence is still unconsumed. -/
theorem AsyncTimedIterator.run_spec {α : Type} :
    ∀ (bs : List Bool) (s : AsyncTimedIterator α),
      ((s.run bs).2.filterMap TimedNext.elem? = s.remaining.take (bs.count true)) ∧
      ((s.run bs).1.remaining = s.remaining.drop (bs.count true)) := by
  intro bs
  induction bs with
  | nil =>
    intro s
    simp [AsyncTimedIterator.run]
  | cons b bs ih =>
    intro s
    cases b with
    | false =>
      have hrem : (s.anext false).1.remaining = s.remaining := by
        unfold AsyncTimedIterator.anext
        rfl
      have hout : (s.anext false).2 = .sentinel := by
        unfold AsyncTimedIterator.anext
        rfl
      obtain ⟨ih1, ih2⟩ := ih (s.anext false).1
      unfold AsyncTimedIterator.run
      simp only [List.filterMap_cons, hout, TimedNext.elem?, ih1, ih2, hrem,
        List.count_cons]
      simp
    | true =>
      unfold AsyncTimedIterator.run
      match hr : s.remaining with
      | [] =>
        have hstep : s.anext true = (⟨[], none, (s.anext true).1.nextId⟩, .stopIteration) := by
          unfold AsyncTimedIterator.anext
          simp [hr]
        obtain ⟨ih1, ih2⟩ := ih (s.anext true).1
        rw [hstep] at ih1 ih2 ⊢
        simp only [List.filterMap_cons, TimedNext.elem?, ih1, ih2]
        simp
      | x :: rest =>
        have hstep : s.anext true = (⟨rest, none, (s.anext true).1.nextId⟩, .element x) := by
          unfold AsyncTimedIterator.anext
          simp [hr]
        obtain ⟨ih1, ih2⟩ := ih (s.anext true).1
        rw [hstep] at ih1 ih2 ⊢
        simp only [List.filterMap_cons, TimedNext.elem?, ih1, ih2, List.count_cons]
        simp [List.take_succ_cons, List.drop_succ_cons]

/-- C5: a timed-out advance returns the sentinel, consumes nothing, and
keeps the stored fetch (same task id, no new `create_task`); the next
advance awaits that same stored fetch and, when it completes, yields the
head of the underlying sequence; globally, the real elements produced by
any call sequence are exactly the first `k` underlying elements in order
(`k` the number of in-time completions) — never duplicated, never
dropped by a timeout. -/
theorem async_timed_iterator_spec (α : Type) (s : AsyncTimedIterator α) (t : Nat)
    (xs : List α) (bs : List Bool) (h : s.task = some t) :
    ((s.anext false).2 = .sentinel) ∧
    ((s.anext false).1.remaining = s.remaining) ∧
    ((s.anext false).1.task = some t ∧ (s.anext false).1.nextId = s.nextId) ∧
    ((s.anext true).1.nextId = s.nextId ∧
      (s.anext true).2 = (match s.remaining with
        | [] => TimedNext.stopIteration
        | x :: _ => TimedNext.element x)) ∧
    (((AsyncTimedIterator.run ⟨xs, none, 0⟩ bs).2.filterMap TimedNext.elem? =
        xs.take (bs.count true)) ∧
      ((AsyncTimedIterator.run ⟨xs, none, 0⟩ bs).1.remaining =
        xs.drop (bs.count true))) := by
  refine ⟨by unfold AsyncTimedIterator.anext; rfl,
    by unfold AsyncTimedIterator.anext; rfl, ⟨?_, ?_⟩, ⟨?_, ?_⟩,
    AsyncTimedIterator.run_spec bs ⟨xs, none, 0⟩⟩
  · unfold AsyncTimedIterator.anext
    simp [h]
  · unfold AsyncTimedIterator.anext
    simp [h]
  · unfold AsyncTimedIterator.anext
    rcases s.remaining with _ | ⟨x, rest⟩ <;> simp [h]
  · unfold AsyncTimedIterator.anext
    rcases hr : s.remaining with _ | ⟨x, rest⟩ <;> simp [h, hr]

/-- Witness for `async_timed_iterator_spec`: an iterator with one stored
pending fetch, run over a two-element underlying sequence with a timeout
followed by two completions. -/
theorem async_timed_iterator_spec_witness :
    (((⟨[5], some 7, 9⟩ : AsyncTimedIterator Nat).anext false).2 = .sentinel) ∧
    (((⟨[5], some 7, 9⟩ : AsyncTimedIterator Nat).anext false).1.remaining = [5]) ∧
    ((((⟨[5], some 7, 9⟩ : AsyncTimedIterator Nat).anext false).1.task = some 7 ∧
      ((⟨[5], some 7, 9⟩ : AsyncTimedIterator Nat).anext false).1.nextId = 9)) ∧
    ((((⟨[5], some 7, 9⟩ : AsyncTimedIterator Nat).anext true).1.nextId = 9 ∧
      ((⟨[5], some 7, 9⟩ : AsyncTimedIterator Nat).anext true).2 = TimedNext.element 5)) ∧
    (((AsyncTimedIterator.run (⟨[1, 2], none, 0⟩ : AsyncTimedIterator Nat)
          [false, true, true]).2.filterMap TimedNext.elem? = [1, 2]) ∧
      ((AsyncTimedIterator.run (⟨[1, 2], none, 0⟩ : AsyncTimedIterator Nat)
          [false, true, true]).1.remaining = [])) :=
  async_timed_iterator_spec Nat ⟨[5], some 7, 9⟩ 7 [1, 2] [false, true, true] rfl

/-- C4 (failing input): calling `aclose` on a freshly constructed
`CancellableAsyncGenerator` — before any advance has ever been made —
raises AttributeError, because `aclose` reads `self.task` and only
`__anext__` ever assigns that attribute. -/
theorem aclose_before_first_advance_attribute_error :
    CancellableAsyncGenerator.aclose (⟨some [0], none⟩ : CancellableAsyncGenerator Nat) =
      .error .attributeError := rfl

/-- C9: consuming `rate_limit` applied to an empty input raises NameError
(the trailing `if packet:` reads the never-bound loop variable) instead of
terminating cleanly with an empty output. -/
theorem rate_limit_empty_name_error :
    rate_limit [] = .error .nameError := rfl

/-- C1 (failing input): `rate_limit` applied to a single nonempty buffer
emits that buffer twice — the trailing `if packet: yield packet` re-emits
the last packet after the input is exhausted — contradicting the claim
that each input element is emitted exactly once with nothing extra. -/
theorem rate_limit_reemits_last :
    rate_limit [Audio.mk 1 2 8000 [0, 1]] =
      .ok [Audio.mk 1 2 8000 [0, 1], Audio.mk 1 2 8000 [0, 1]] := rfl

/-- C2 (counterexample): two buffers that differ in sample rate (an
incompatible format) are silently combined by `Audio.combine` — it
succeeds instead of reporting FormatMismatch, because the code performs
no channels/width/rate check at all. -/
theorem combine_rate_mismatch_ok :
    Audio.combine (Audio.mk 1 2 8000 [1, 0]) (Audio.mk 1 2 16000 [2, 0]) =
      .ok (Audio.mk 1 2 8000 [3, 0]) := rfl

/-- Byte length of the encoding of one sample. -/
theorem leEncode_length (width : Nat) (v : Int) : (leEncode width v).length = width := by
  simp [leEncode]

/-- The sample loop of `audioop.add` preserves the byte length of its
input when the width is positive and divides it, given enough fuel. -/
theorem addSamplesF_length (fuel : Nat) :
    ∀ (width : Nat) (d1 d2 : List Nat), 0 < width → width ∣ d1.length →
      d1.length = d2.length → d1.length ≤ fuel →
      (addSamplesF fuel width d1 d2).length = d1.length := by
  induction fuel with
  | zero =>
    intro width d1 d2 hw _ _ hfuel
    have : d1 = [] := List.eq_nil_of_length_eq_zero (Nat.le_zero.mp hfuel)
    subst this
    simp [addSamplesF]
  | succ fuel ih =>
    intro width d1 d2 hw hdvd hlen hfuel
    match d1 with
    | [] => simp [addSamplesF]
    | x :: t =>
      have hpos : 0 < (x :: t).length := by simp
      have hwle : width ≤ (x :: t).length := Nat.le_of_dvd hpos hdvd
      have hdrop1 : ((x :: t).drop width).length = (x :: t).length - width := by
        simp [List.length_drop]
      have hdrop2 : (d2.drop width).length = d2.length - width := by
        simp [List.length_drop]
      have hrec := ih width ((x :: t).drop width) (d2.drop width) hw
        (by rw [hdrop1]; exact Nat.dvd_sub' hdvd dvd_rfl)
        (by rw [hdrop1, hdrop2, hlen])
        (by rw [hdrop1]; omega)
      simp only [addSamplesF, List.length_append, leEncode_length, hrec, hdrop1]
      omega

/-- C2 (amended): `Audio.combine` performs no format-compatibility check.
Whenever the caller's width is a valid audioop width that divides its
data length and the two data byte strings have equal length, `combine`
succeeds — regardless of any difference in channels, rate, or even the
other buffer's width — returning a buffer with the caller's metadata and
data of the same byte length.  It reports an error only when `audioop.add`
does (invalid width, partial frame, or differing byte lengths). -/
theorem combine_no_format_check (a b : Audio)
    (hw : a.width = 1 ∨ a.width = 2 ∨ a.width = 3 ∨ a.width = 4)
    (hdvd : a.width ∣ a.data.length)
    (hlen : a.data.length = b.data.length) :
    ∃ d, Audio.combine a b = .ok (Audio.mk a.channels a.width a.rate d) ∧
      d.length = a.data.length := by
  have hwpos : 0 < a.width := by rcases hw with h | h | h | h <;> omega
  have hmod : a.data.length % a.width = 0 := by
    obtain ⟨m, hm⟩ := hdvd
    simp [hm, Nat.mul_mod_right]
  refine ⟨addSamplesF a.data.length a.width a.data b.data, ?_, ?_⟩
  · unfold Audio.combine audioop_add
    rw [if_neg (not_not_intro hw), if_neg (not_not_intro hmod), if_neg (not_not_intro hlen)]
    rfl
  · exact addSamplesF_length a.data.length a.width a.data b.data hwpos hdvd hlen le_rfl

/-- C7: `Audio.__add__` fails with FormatMismatch (a ValueError) iff the
channels, width or rate differ; otherwise it returns a buffer of the same
format whose data is `a.data ++ b.data`, and — the data lengths being
whole numbers of frames — its frame count and duration are the sums of
the operands'. -/
theorem audio_add_spec (a b : Audio)
    (ha : a.framewidth ∣ a.data.length) (hb : b.framewidth ∣ b.data.length) :
    (a.add b = .error .valueError ↔
      ¬(b.channels = a.channels ∧ b.width = a.width ∧ b.rate = a.rate)) ∧
    (b.channels = a.channels ∧ b.width = a.width ∧ b.rate = a.rate →
      ∃ c, a.add b = .ok c ∧ c.channels = a.channels ∧ c.width = a.width ∧
        c.rate = a.rate ∧ c.data = a.data ++ b.data ∧
        c.length = a.length + b.length ∧ c.duration = a.duration + b.duration) := by
  by_cases hc : b.channels = a.channels ∧ b.width = a.width ∧ b.rate = a.rate
  · obtain ⟨h1, h2, h3⟩ := hc
    have hcond : ¬(b.channels ≠ a.channels ∨ b.width ≠ a.width ∨ b.rate ≠ a.rate) := by
      tauto
    have hfwb : a.framewidth ∣ b.data.length := by
      have : b.framewidth = a.framewidth := by
        simp [Audio.framewidth, h1, h2]
      rwa [this] at hb
    have hlen : (a.clone (a.data ++ b.data)).length = a.length + b.length := by
      rcases Nat.eq_zero_or_pos a.framewidth with hfw | hfw
      · have hza : a.data.length = 0 := by
          have := ha; rw [hfw] at this; exact Nat.eq_zero_of_zero_dvd this
        have hzb : b.data.length = 0 := by
          have := hfwb; rw [hfw] at this; exact Nat.eq_zero_of_zero_dvd this
        simp [Audio.length, Audio.clone, Audio.framewidth] at hfw ⊢
        simp [hza, hzb]
      · obtain ⟨m, hm⟩ := ha
        obtain ⟨n, hn⟩ := hfwb
        have hfwb' : b.framewidth = a.framewidth := by
          simp [Audio.framewidth, h1, h2]
        have la : a.length = m := by
          unfold Audio.length
          rw [hm, Nat.mul_div_cancel_left _ hfw]
        have lb : b.length = n := by
          unfold Audio.length
          rw [hfwb', hn, Nat.mul_div_cancel_left _ hfw]
        have lc : (a.clone (a.data ++ b.data)).length = m + n := by
          show (a.data ++ b.data).length / a.framewidth = m + n
          rw [List.length_append, hm, hn, ← Nat.mul_add, Nat.mul_div_cancel_left _ hfw]
        rw [lc, la, lb]
    have hdur : (a.clone (a.data ++ b.data)).duration = a.duration + b.duration := by
      have hr : (a.clone (a.data ++ b.data)).rate = a.rate := rfl
      simp only [Audio.duration, hlen, hr, h3, Nat.cast_add]
      rw [add_div]
    constructor
    · rw [Audio.add, if_neg hcond]
      constructor
      · intro h; exact absurd h (by simp)
      · intro h; exact absurd ⟨h1, h2, h3⟩ h
    · intro _
      exact ⟨a.clone (a.data ++ b.data), by rw [Audio.add, if_neg hcond], rfl, rfl, rfl, rfl,
        hlen, hdur⟩
  · have hcond : b.channels ≠ a.channels ∨ b.width ≠ a.width ∨ b.rate ≠ a.rate := by
      tauto
    constructor
    · rw [Audio.add, if_pos hcond]
      simp [hc]
    · intro h; exact absurd h hc

/-- Witness for `audio_add_spec`: two compatible one/two-frame buffers. -/
theorem audio_add_spec_witness :
    (Audio.mk 1 2 8000 [0, 0]).framewidth ∣ (Audio.mk 1 2 8000 [0, 0]).data.length ∧
    (Audio.mk 1 2 8000 [1, 0, 2, 0]).framewidth ∣ (Audio.mk 1 2 8000 [1, 0, 2, 0]).data.length ∧
    (∃ c, (Audio.mk 1 2 8000 [0, 0]).add (Audio.mk 1 2 8000 [1, 0, 2, 0]) = .ok c ∧
      c.channels = (Audio.mk 1 2 8000 [0, 0]).channels ∧
      c.width = (Audio.mk 1 2 8000 [0, 0]).width ∧
      c.rate = (Audio.mk 1 2 8000 [0, 0]).rate ∧
      c.data = (Audio.mk 1 2 8000 [0, 0]).data ++ (Audio.mk 1 2 8000 [1, 0, 2, 0]).data ∧
      c.length = (Audio.mk 1 2 8000 [0, 0]).length + (Audio.mk 1 2 8000 [1, 0, 2, 0]).length ∧
      c.duration = (Audio.mk 1 2 8000 [0, 0]).duration + (Audio.mk 1 2 8000 [1, 0, 2, 0]).duration) :=
  ⟨by decide, by decide,
    (audio_add_spec (Audio.mk 1 2 8000 [0, 0]) (Audio.mk 1 2 8000 [1, 0, 2, 0])
      (by decide) (by decide)).2 ⟨rfl, rfl, rfl⟩⟩

/-- Witness for `combine_no_format_check`: two buffers that differ in
both channels and rate, combined without any error. -/
theorem combine_no_format_check_witness :
    ((Audio.mk 1 2 8000 [1, 0]).width = 1 ∨ (Audio.mk 1 2 8000 [1, 0]).width = 2 ∨
      (Audio.mk 1 2 8000 [1, 0]).width = 3 ∨ (Audio.mk 1 2 8000 [1, 0]).width = 4) ∧
    (Audio.mk 1 2 8000 [1, 0]).width ∣ (Audio.mk 1 2 8000 [1, 0]).data.length ∧
    (Audio.mk 1 2 8000 [1, 0]).data.length = (Audio.mk 2 2 44100 [255, 127]).data.length ∧
    (∃ d, Audio.combine (Audio.mk 1 2 8000 [1, 0]) (Audio.mk 2 2 44100 [255, 127]) =
        .ok (Audio.mk 1 2 8000 d) ∧ d.length = 2) :=
  ⟨by decide, by decide, by decide,
    combine_no_format_check (Audio.mk 1 2 8000 [1, 0]) (Audio.mk 2 2 44100 [255, 127])
      (by decide) (by decide) (by decide)⟩

/-- Helper: the fuel of `chunkBytesF` is irrelevant once it exceeds the
data length. -/
theorem chunkBytesF_fuel :
    ∀ (fuel fuel' k : Nat) (d : List Nat), d.length < fuel → d.length < fuel' →
      chunkBytesF fuel k d = chunkBytesF fuel' k d := by
  intro fuel
  induction fuel with
  | zero => intro fuel' k d h _; exact absurd h (by omega)
  | succ fuel ih =>
    intro fuel' k d h h'
    match fuel' with
    | 0 => exact absurd h' (by omega)
    | fuel' + 1 =>
      show chunkBytesF (fuel + 1) k d = chunkBytesF (fuel' + 1) k d
      rw [chunkBytesF, chunkBytesF]
      by_cases hc : 0 < k ∧ k ≤ d.length
      · rw [if_pos hc, if_pos hc,
          ih fuel' k (d.drop k) (by simp [List.length_drop]; omega)
            (by simp [List.length_drop]; omega)]
      · rw [if_neg hc, if_neg hc]

/-- Helper: unfolding of `chunkBytes` when a full chunk is available. -/
theorem chunkBytes_step (k : Nat) (d : List Nat) (hk : 0 < k) (hkd : k ≤ d.length) :
    chunkBytes k d = d.take k :: chunkBytes k (d.drop k) := by
  unfold chunkBytes
  rw [chunkBytesF, if_pos ⟨hk, hkd⟩,
    chunkBytesF_fuel d.length ((d.drop k).length + 1) k (d.drop k)
      (by simp [List.length_drop]; omega) (by omega)]

/-- Helper: `chunkBytes` on data shorter than one chunk. -/
theorem chunkBytes_small (k : Nat) (d : List Nat) (h : d.length < k) :
    chunkBytes k d = if d.isEmpty then [] else [d] := by
  unfold chunkBytes
  rw [chunkBytesF, if_neg (by omega)]

/-- Helper: greedy chunking loses no byte. -/
theorem chunkBytes_join (k : Nat) (hk : 0 < k) :
    ∀ (n : Nat) (d : List Nat), d.length ≤ n → (chunkBytes k d).flatten = d := by
  intro n
  induction n with
  | zero =>
    intro d hd
    have hnil : d = [] := List.eq_nil_of_length_eq_zero (Nat.le_zero.mp hd)
    subst hnil
    rw [chunkBytes_small k [] (by simpa using hk)]
    simp
  | succ n ih =>
    intro d hd
    by_cases hc : k ≤ d.length
    · rw [chunkBytes_step k d hk hc, List.flatten_cons,
        ih (d.drop k) (by simp [List.length_drop]; omega)]
      exact List.take_append_drop k d
    · rw [chunkBytes_small k d (by omega)]
      rcases d with _ | ⟨x, t⟩
      · simp
      · simp

/-- Helper: the chunk sizes produced by greedy chunking — all full
chunks, then the nonzero remainder when there is one. -/
theorem chunkBytes_lengths (k : Nat) (hk : 0 < k) :
    ∀ (n : Nat) (d : List Nat), d.length ≤ n →
      (chunkBytes k d).map List.length =
        List.replicate (d.length / k) k ++
          (if d.length % k = 0 then [] else [d.length % k]) := by
  intro n
  induction n with
  | zero =>
    intro d hd
    have hnil : d = [] := List.eq_nil_of_length_eq_zero (Nat.le_zero.mp hd)
    subst hnil
    rw [chunkBytes_small k [] (by simpa using hk)]
    simp
  | succ n ih =>
    intro d hd
    by_cases hc : k ≤ d.length
    · obtain ⟨m, hm⟩ := Nat.exists_eq_add_of_le hc
      rw [chunkBytes_step k d hk hc]
      simp only [List.map_cons]
      rw [ih (d.drop k) (by simp [List.length_drop]; omega)]
      have h1 : (d.take k).length = k := by simp [List.length_take]; omega
      have h2 : (d.drop k).length = m := by simp [List.length_drop]; omega
      rw [h1, h2, hm]
      have hdiv : (k + m) / k = m / k + 1 := by
        rw [Nat.add_comm k m, Nat.add_div_right m hk]
      have hmod : (k + m) % k = m % k := by
        rw [Nat.add_comm k m, Nat.add_mod_right]
      rw [hdiv, hmod]
      simp [List.replicate_succ]
    · have hdlt : d.length < k := by omega
      have hmod : d.length % k = d.length := Nat.mod_eq_of_lt hdlt
      have hdiv : d.length / k = 0 := Nat.div_eq_of_lt hdlt
      rw [chunkBytes_small k d hdlt]
      by_cases hd0 : d = []
      · subst hd0; simp
      · have hlen0 : d.length ≠ 0 := by simpa [List.length_eq_zero] using hd0
        simp [List.isEmpty_iff, hd0, hdiv, hmod, hlen0]

/-- Helper: the inner `while` loop of `size_limit` carves off exactly the
full chunks greedy byte-chunking would, leaves a remainder shorter than
one chunk that preserves format and whole-frame divisibility, and every
chunk it yields carries the common format. -/
theorem size_limit_whileF_spec (size c w r : Nat) (hfw : 0 < c * w) (hsz : 0 < size) :
    ∀ (fuel : Nat) (buf : Audio), buf.data.length < fuel →
      buf.channels = c → buf.width = w → buf.rate = r →
      ((size_limit_whileF fuel size buf).2.channels = c ∧
        (size_limit_whileF fuel size buf).2.width = w ∧
        (size_limit_whileF fuel size buf).2.rate = r) ∧
      (size_limit_whileF fuel size buf).2.data.length < size * (c * w) ∧
      ((c * w) ∣ buf.data.length → (c * w) ∣ (size_limit_whileF fuel size buf).2.data.length) ∧
      (∀ o ∈ (size_limit_whileF fuel size buf).1, o.channels = c ∧ o.width = w ∧ o.rate = r) ∧
      (∀ suffix : List Nat,
        chunkBytes (size * (c * w)) (buf.data ++ suffix) =
          (size_limit_whileF fuel size buf).1.map Audio.data ++
            chunkBytes (size * (c * w)) ((size_limit_whileF fuel size buf).2.data ++ suffix)) := by
  have hkpos : 0 < size * (c * w) := Nat.mul_pos hsz hfw
  intro fuel
  induction fuel with
  | zero => intro buf h; exact absurd h (by omega)
  | succ fuel ih =>
    intro buf hlen hc hw hr
    have hfweq : buf.framewidth = c * w := by simp [Audio.framewidth, hc, hw]
    by_cases hcond : 0 < size * buf.framewidth ∧ size ≤ buf.length
    · have hk : size * (c * w) ≤ buf.data.length := by
        have h2 := hcond.2
        unfold Audio.length at h2
        rw [hfweq] at h2
        exact (Nat.le_div_iff_mul_le hfw).mp h2
      have hstep : size_limit_whileF (fuel + 1) size buf =
          (buf.clone (buf.data.take (size * buf.framewidth)) ::
            (size_limit_whileF fuel size
              (buf.clone (buf.data.drop (size * buf.framewidth)))).1,
            (size_limit_whileF fuel size
              (buf.clone (buf.data.drop (size * buf.framewidth)))).2) := by
        rw [size_limit_whileF, if_pos hcond]
      have hTLlen : (buf.clone (buf.data.drop (size * buf.framewidth))).data.length =
          buf.data.length - size * (c * w) := by
        simp [Audio.clone, List.length_drop, hfweq]
      obtain ⟨ihfmt, ihlen, ihdvd, ihout, ihchunk⟩ :=
        ih (buf.clone (buf.data.drop (size * buf.framewidth)))
          (by rw [hTLlen]; omega)
          (by simp [Audio.clone, hc]) (by simp [Audio.clone, hw]) (by simp [Audio.clone, hr])
      rw [hstep]
      refine ⟨ihfmt, ihlen, ?_, ?_, ?_⟩
      · intro hdvd
        refine ihdvd ?_
        rw [hTLlen]
        exact Nat.dvd_sub' hdvd (Dvd.intro_left size rfl)
      · intro o ho
        rcases List.mem_cons.mp ho with hcase | hcase
        · subst hcase
          exact ⟨by simp [Audio.clone, hc], by simp [Audio.clone, hw], by simp [Audio.clone, hr]⟩
        · exact ihout o hcase
      · intro suffix
        have hkapp : size * (c * w) ≤ (buf.data ++ suffix).length := by
          rw [List.length_append]; omega
        rw [chunkBytes_step (size * (c * w)) (buf.data ++ suffix) hkpos hkapp,
          List.take_append_of_le_length hk, List.drop_append_of_le_length hk]
        have hclone1 : (buf.clone (buf.data.take (size * buf.framewidth))).data =
            buf.data.take (size * (c * w)) := by
          simp [Audio.clone, hfweq]
        have hclone2 : (buf.clone (buf.data.drop (size * buf.framewidth))).data =
            buf.data.drop (size * (c * w)) := by
          simp [Audio.clone, hfweq]
        rw [List.map_cons, hclone1, List.cons_append]
        rw [← hclone2, ihchunk suffix]
    · have hstep : size_limit_whileF (fuel + 1) size buf = ([], buf) := by
        rw [size_limit_whileF, if_neg hcond]
      have hsmall : buf.data.length < size * (c * w) := by
        have h1 : 0 < size * buf.framewidth := by
          rw [hfweq]; exact hkpos
        have h2 : ¬size ≤ buf.length := fun hle => hcond ⟨h1, hle⟩
        have h3 : buf.length < size := by omega
        unfold Audio.length at h3
        rw [hfweq] at h3
        exact (Nat.div_lt_iff_lt_mul hfw).mp h3
      rw [hstep]
      exact ⟨⟨hc, hw, hr⟩, hsmall, fun h => h, by simp, fun suffix => by simp⟩

/-- Helper: the body of `size_limit` run from a remainder `b` shorter
than one chunk produces exactly the greedy chunking of `b`'s bytes
followed by the upstream bytes, all chunks in the common format. -/
theorem size_limit_go_spec (size c w r : Nat) (hfw : 0 < c * w) (hsz : 0 < size) :
    ∀ (ps : List Audio) (b : Audio),
      b.channels = c → b.width = w → b.rate = r →
      (c * w) ∣ b.data.length → b.data.length < size * (c * w) →
      (∀ p ∈ ps, p.channels = c ∧ p.width = w ∧ p.rate = r ∧ (c * w) ∣ p.data.length) →
      ∃ out, size_limit_go size (some b) ps = .ok out ∧
        out.map Audio.data = chunkBytes (size * (c * w)) (b.data ++ (ps.map Audio.data).flatten) ∧
        ∀ o ∈ out, o.channels = c ∧ o.width = w ∧ o.rate = r := by
  have hkpos : 0 < size * (c * w) := Nat.mul_pos hsz hfw
  intro ps
  induction ps with
  | nil =>
    intro b hc hw hr hdvd hsmall _
    by_cases hb : b.toBool
    · refine ⟨[b], by simp [size_limit_go, hb], ?_, ?_⟩
      · have hblen : 0 < b.data.length := by
          by_contra hno
          have : b.data.length = 0 := by omega
          simp [Audio.toBool, Audio.length, this] at hb
        have hne : b.data ≠ [] := by
          intro hcontra
          rw [hcontra] at hblen
          simp at hblen
        rw [List.map_nil, List.flatten_nil, List.append_nil,
          chunkBytes_small (size * (c * w)) b.data hsmall]
        simp [List.isEmpty_iff, hne]
      · intro o ho
        rcases List.mem_singleton.mp ho with rfl
        exact ⟨hc, hw, hr⟩
    · have hfweq : b.framewidth = c * w := by simp [Audio.framewidth, hc, hw]
      have hlen0 : b.data.length = 0 := by
        by_contra hno
        have hpos : 0 < b.data.length := by omega
        have hle : c * w ≤ b.data.length := Nat.le_of_dvd hpos hdvd
        have : 0 < b.length := by
          unfold Audio.length
          rw [hfweq]
          exact Nat.div_pos hle hfw
        simp [Audio.toBool, this] at hb
      have hbnil : b.data = [] := List.eq_nil_of_length_eq_zero hlen0
      refine ⟨[], by simp [size_limit_go, hb], ?_, by simp⟩
      rw [hbnil]
      simp only [List.map_nil, List.flatten_nil, List.nil_append]
      rw [chunkBytes_small (size * (c * w)) [] (by simpa using hkpos)]
      simp
  | cons p rest ih =>
    intro b hc hw hr hdvd hsmall hps
    obtain ⟨hpc, hpw, hpr, hpdvd⟩ := hps p (List.mem_cons_self p rest)
    have hps' : ∀ q ∈ rest, q.channels = c ∧ q.width = w ∧ q.rate = r ∧
        (c * w) ∣ q.data.length := fun q hq => hps q (List.mem_cons_of_mem p hq)
    -- the updated buffer after `buf = buf + packet if buf else packet`
    obtain ⟨b', hbeq, hc', hw', hr', hdata'⟩ :
        ∃ b', (if b.toBool then b.add p else .ok p) = .ok b' ∧ b'.channels = c ∧
          b'.width = w ∧ b'.rate = r ∧ b'.data = b.data ++ p.data := by
      by_cases hb : b.toBool
      · refine ⟨b.clone (b.data ++ p.data), ?_, by simp [Audio.clone, hc],
          by simp [Audio.clone, hw], by simp [Audio.clone, hr], rfl⟩
        rw [if_pos hb]
        unfold Audio.add
        rw [if_neg (by rw [hpc, hc, hpw, hw, hpr, hr]; simp)]
      · have hfweq : b.framewidth = c * w := by simp [Audio.framewidth, hc, hw]
        have hlen0 : b.data.length = 0 := by
          by_contra hno
          have hpos : 0 < b.data.length := by omega
          have hle : c * w ≤ b.data.length := Nat.le_of_dvd hpos hdvd
          have : 0 < b.length := by
            unfold Audio.length
            rw [hfweq]
            exact Nat.div_pos hle hfw
          simp [Audio.toBool, this] at hb
        have hbnil : b.data = [] := List.eq_nil_of_length_eq_zero hlen0
        exact ⟨p, by rw [if_neg hb], hpc, hpw, hpr, by rw [hbnil, List.nil_append]⟩
    have hdvd' : (c * w) ∣ b'.data.length := by
      rw [hdata', List.length_append]
      exact Nat.dvd_add hdvd hpdvd
    obtain ⟨wfmt, wlen, wdvd, wout, wchunk⟩ :=
      size_limit_whileF_spec size c w r hfw hsz (b'.data.length + 1) b' (by omega) hc' hw' hr'
    have hwl : size_limit_whileF (b'.data.length + 1) size b' = size_limit_while size b' :=
      rfl
    rw [hwl] at wfmt wlen wdvd wout wchunk
    obtain ⟨out2, hout2eq, hout2map, hout2fmt⟩ :=
      ih (size_limit_while size b').2 wfmt.1 wfmt.2.1 wfmt.2.2 (wdvd hdvd') wlen hps'
    refine ⟨(size_limit_while size b').1 ++ out2, ?_, ?_, ?_⟩
    · show size_limit_go size (some b) (p :: rest) = _
      simp only [size_limit_go]
      by_cases hb : b.toBool = true
      · rw [if_pos hb] at hbeq
        rw [if_pos hb, hbeq]
        show (size_limit_go size (some (size_limit_while size b').2) rest).bind _ = _
        rw [hout2eq]
        rfl
      · rw [if_neg hb] at hbeq
        have hp' : p = b' := by
          injection hbeq
        subst hp'
        rw [if_neg hb]
        show (size_limit_go size (some (size_limit_while size p).2) rest).bind _ = _
        rw [hout2eq]
        rfl
    · rw [List.map_append, hout2map]
      have hassoc : b.data ++ ((p :: rest).map Audio.data).flatten =
          b'.data ++ (rest.map Audio.data).flatten := by
        rw [hdata', List.map_cons, List.flatten_cons, List.append_assoc]
      rw [hassoc, wchunk ((rest.map Audio.data).flatten)]
    · intro o ho
      rcases List.mem_append.mp ho with hcase | hcase
      · exact wout o hcase
      · exact hout2fmt o hcase

/-- Helper: starting `size_limit` with `buf = None` behaves like starting
it with an empty buffer of the common format. -/
theorem size_limit_go_none_eq (size c w r : Nat) (ps : List Audio) :
    size_limit_go size none ps = size_limit_go size (some (Audio.mk c w r [])) ps := by
  have htb : (Audio.mk c w r []).toBool = false := by
    simp [Audio.toBool, Audio.length]
  cases ps with
  | nil => simp [size_limit_go, htb]
  | cons p rest =>
    simp only [size_limit_go]
    rw [htb]
    simp

/-- C3: for same-format whole-frame input buffers and a positive chunk
size `N`, `size_limit` succeeds, concatenating its output reproduces the
input bytes exactly, no emitted chunk is empty, and the emitted frame
counts are exactly `D / N` chunks of `N` frames followed by one final
chunk of `D mod N` frames iff that remainder is nonzero (`D` the total
input frame count). -/
theorem size_limit_spec (ps : List Audio) (N c w r : Nat)
    (hN : 0 < N) (hfw : 0 < c * w)
    (hfmt : ∀ p ∈ ps, p.channels = c ∧ p.width = w ∧ p.rate = r ∧ (c * w) ∣ p.data.length) :
    ∃ out, size_limit ps N = .ok out ∧
      (out.map Audio.data).flatten = (ps.map Audio.data).flatten ∧
      (∀ o ∈ out, 0 < o.length) ∧
      out.map Audio.length =
        List.replicate ((ps.map Audio.data).flatten.length / (c * w) / N) N ++
          (if (ps.map Audio.data).flatten.length / (c * w) % N = 0 then []
           else [(ps.map Audio.data).flatten.length / (c * w) % N]) := by
  have hkpos : 0 < N * (c * w) := Nat.mul_pos hN hfw
  obtain ⟨out, houteq, houtmap, houtfmt⟩ :=
    size_limit_go_spec N c w r hfw hN ps (Audio.mk c w r []) rfl rfl rfl (by simp)
      (by simpa using hkpos) hfmt
  have houtmap' : out.map Audio.data =
      chunkBytes (N * (c * w)) ((ps.map Audio.data).flatten) := by
    simpa using houtmap
  have hdvdJ : (c * w) ∣ ((ps.map Audio.data).flatten).length := by
    rw [List.length_flatten]
    refine List.dvd_sum ?_
    intro x hx
    rw [List.map_map] at hx
    obtain ⟨p, hp, rfl⟩ := List.mem_map.mp hx
    exact (hfmt p hp).2.2.2
  obtain ⟨D, hD⟩ := hdvdJ
  have hDdef : ((ps.map Audio.data).flatten).length / (c * w) = D := by
    rw [hD, Nat.mul_div_cancel_left _ hfw]
  have hmaplen : out.map Audio.length =
      List.replicate (((ps.map Audio.data).flatten).length / (c * w) / N) N ++
        (if ((ps.map Audio.data).flatten).length / (c * w) % N = 0 then []
         else [((ps.map Audio.data).flatten).length / (c * w) % N]) := by
    have h1 : out.map Audio.length = (out.map Audio.data).map (fun d => d.length / (c * w)) := by
      rw [List.map_map]
      refine List.map_congr_left ?_
      intro o ho
      obtain ⟨f1, f2, f3⟩ := houtfmt o ho
      show Audio.length o = _
      unfold Audio.length Audio.framewidth
      rw [f1, f2]
      rfl
    have h2 : (chunkBytes (N * (c * w)) ((ps.map Audio.data).flatten)).map
          (fun d => d.length / (c * w)) =
        ((chunkBytes (N * (c * w)) ((ps.map Audio.data).flatten)).map List.length).map
          (fun L => L / (c * w)) := by
      rw [List.map_map]
      rfl
    rw [h1, houtmap', h2,
      chunkBytes_lengths (N * (c * w)) hkpos ((ps.map Audio.data).flatten).length
        ((ps.map Audio.data).flatten) le_rfl,
      List.map_append, List.map_replicate]
    have h3 : N * (c * w) / (c * w) = N := by
      rw [Nat.mul_comm N (c * w)]
      exact Nat.mul_div_cancel_left N hfw
    have h4 : ((ps.map Audio.data).flatten).length / (N * (c * w)) =
        ((ps.map Audio.data).flatten).length / (c * w) / N := by
      rw [Nat.div_div_eq_div_mul, Nat.mul_comm (c * w) N]
    have h5 : ((ps.map Audio.data).flatten).length % (N * (c * w)) = (c * w) * (D % N) := by
      rw [hD, Nat.mul_comm N (c * w), Nat.mul_mod_mul_left]
    have h6 : (((ps.map Audio.data).flatten).length % (N * (c * w)) = 0) ↔ (D % N = 0) := by
      rw [h5]
      constructor
      · intro h
        rcases Nat.mul_eq_zero.mp h with h | h
        · omega
        · exact h
      · intro h
        rw [h, Nat.mul_zero]
    have h7 : ((ps.map Audio.data).flatten).length % (N * (c * w)) / (c * w) = D % N := by
      rw [h5, Nat.mul_div_cancel_left _ hfw]
    rw [apply_ite (List.map (fun L => L / (c * w)))]
    simp only [List.map_nil, List.map_cons]
    rw [h3, h4, h7, hDdef]
    simp only [h6]
  refine ⟨out, ?_, ?_, ?_, hmaplen⟩
  · unfold size_limit
    rw [size_limit_go_none_eq N c w r ps, houteq]
  · rw [houtmap']
    exact chunkBytes_join (N * (c * w)) hkpos ((ps.map Audio.data).flatten).length _ le_rfl
  · intro o ho
    have hmem : o.length ∈ out.map Audio.length := List.mem_map_of_mem Audio.length ho
    rw [hmaplen] at hmem
    rcases List.mem_append.mp hmem with hmem | hmem
    · have := List.eq_of_mem_replicate hmem
      omega
    · by_cases hz : ((ps.map Audio.data).flatten).length / (c * w) % N = 0
      · rw [if_pos hz] at hmem
        simp at hmem
      · rw [if_neg hz] at hmem
        have := List.mem_singleton.mp hmem
        omega

/-- Witness for `size_limit_spec`: one five-frame mono byte-wide buffer
chunked at two frames gives chunks of 2, 2 and 1 frames. -/
theorem size_limit_spec_witness :
    0 < 2 ∧ 0 < 1 * 1 ∧
    (∀ p ∈ [Audio.mk 1 1 8000 [0, 1, 2, 3, 4]],
      p.channels = 1 ∧ p.width = 1 ∧ p.rate = 8000 ∧ (1 * 1) ∣ p.data.length) ∧
    (∃ out, size_limit [Audio.mk 1 1 8000 [0, 1, 2, 3, 4]] 2 = .ok out ∧
      (out.map Audio.data).flatten =
        (([Audio.mk 1 1 8000 [0, 1, 2, 3, 4]]).map Audio.data).flatten ∧
      (∀ o ∈ out, 0 < o.length) ∧
      out.map Audio.length =
        List.replicate
            ((([Audio.mk 1 1 8000 [0, 1, 2, 3, 4]]).map Audio.data).flatten.length /
              (1 * 1) / 2) 2 ++
          (if (([Audio.mk 1 1 8000 [0, 1, 2, 3, 4]]).map Audio.data).flatten.length /
              (1 * 1) % 2 = 0 then []
           else [(([Audio.mk 1 1 8000 [0, 1, 2, 3, 4]]).map Audio.data).flatten.length /
              (1 * 1) % 2])) :=
  ⟨by decide, by decide, by decide,
    size_limit_spec [Audio.mk 1 1 8000 [0, 1, 2, 3, 4]] 2 1 1 8000 (by decide) (by decide)
      (by decide)⟩

theorem readU16_drop (bs : List Nat) (i j : Nat) :
    readU16 (bs.drop i) j = readU16 bs (i + j) := by
  simp [readU16, List.getD_eq_getElem?_getD, List.getElem?_drop, Nat.add_assoc]

theorem readU32_drop (bs : List Nat) (i j : Nat) :
    readU32 (bs.drop i) j = readU32 bs (i + j) := by
  simp [readU32, readU16_drop, Nat.add_assoc]

theorem readU16_u16le (n : Nat) (rest : List Nat) :
    readU16 (u16le n ++ rest) 0 = n % 65536 := by
  show n % 256 + 256 * (n / 256 % 256) = n % 65536
  omega

theorem readU32_u32le (n : Nat) (rest : List Nat) :
    readU32 (u32le n ++ rest) 0 = n % 4294967296 := by
  show (n % 256 + 256 * (n / 256 % 256)) +
    65536 * (n / 65536 % 256 + 256 * (n / 16777216 % 256)) = n % 4294967296
  omega

theorem readU16_at (pre post : List Nat) (i : Nat) (h : pre.length = i) :
    readU16 (pre ++ post) i = readU16 post 0 := by
  subst h
  have h2 := readU16_drop (pre ++ post) pre.length 0
  rw [Nat.add_zero, List.drop_left] at h2
  exact h2.symm

theorem readU32_at (pre post : List Nat) (i : Nat) (h : pre.length = i) :
    readU32 (pre ++ post) i = readU32 post 0 := by
  subst h
  have h2 := readU32_drop (pre ++ post) pre.length 0
  rw [Nat.add_zero, List.drop_left] at h2
  exact h2.symm

theorem readU16_field (pre post : List Nat) (i n : Nat) (h : pre.length = i) :
    readU16 (pre ++ (u16le n ++ post)) i = n % 65536 := by
  rw [readU16_at pre (u16le n ++ post) i h, readU16_u16le]

theorem readU32_field (pre post : List Nat) (i n : Nat) (h : pre.length = i) :
    readU32 (pre ++ (u32le n ++ post)) i = n % 4294967296 := by
  rw [readU32_at pre (u32le n ++ post) i h, readU32_u32le]

/-- One fmt-chunk step of the wave reader. -/
theorem parse_fmt_step (fuel : Nat) (fmt : Option (Nat × Nat × Nat))
    (payload rest : List Nat) (hplen : payload.length = 16)
    (hone : readU16 payload 0 = 1) :
    parseChunksF (fuel + 1) fmt (fmtTag ++ (u32le 16 ++ (payload ++ rest))) =
      parseChunksF fuel
        (some (readU16 payload 2, (readU16 payload 14 + 7) / 8, readU32 payload 4)) rest := by
  have hlen8 : ¬(fmtTag ++ (u32le 16 ++ (payload ++ rest))).length < 8 := by
    simp [fmtTag, u32le]
  have htake : (fmtTag ++ (u32le 16 ++ (payload ++ rest))).take 4 = fmtTag := rfl
  have hsz : readU32 (fmtTag ++ (u32le 16 ++ (payload ++ rest))) 4 = 16 := by
    have h1 : (fmtTag ++ (u32le 16 ++ (payload ++ rest))).drop 4 =
        u32le 16 ++ (payload ++ rest) := rfl
    have h2 := readU32_drop (fmtTag ++ (u32le 16 ++ (payload ++ rest))) 4 0
    rw [h1] at h2
    rw [show (4 : Nat) = 4 + 0 from rfl, ← h2, readU32_u32le]
  have hcontent : ((fmtTag ++ (u32le 16 ++ (payload ++ rest))).drop 8).take 16 = payload := by
    have h1 : (fmtTag ++ (u32le 16 ++ (payload ++ rest))).drop 8 = payload ++ rest := rfl
    rw [h1, List.take_append_eq_append_take, hplen]
    simp [List.take_of_length_le, hplen]
  have hdrop24 : (fmtTag ++ (u32le 16 ++ (payload ++ rest))).drop (8 + 16 + 16 % 2) = rest := by
    have h1 : (8 : Nat) + 16 + 16 % 2 = 24 := by omega
    rw [h1]
    have h2 : (fmtTag ++ (u32le 16 ++ (payload ++ rest))).drop 24 =
        (payload ++ rest).drop 16 := rfl
    rw [h2, List.drop_append_eq_append_drop, hplen]
    simp
    omega
  simp only [parseChunksF]
  rw [if_neg hlen8, if_pos htake, hsz, hcontent, if_neg (by omega), if_neg (by omega), hdrop24]

/-- The data-chunk step of the wave reader: returns the buffer. -/
theorem parse_data_step (fuel ch sw fr : Nat) (data : List Nat)
    (hL : data.length < 4294967296) (hsw : 0 < ch * sw) :
    parseChunksF (fuel + 1) (some (ch, sw, fr)) (dataTag ++ (u32le data.length ++ data)) =
      .ok (Audio.mk ch sw fr data) := by
  have hlen8 : ¬(dataTag ++ (u32le data.length ++ data)).length < 8 := by
    simp [dataTag, u32le]
  have htake : (dataTag ++ (u32le data.length ++ data)).take 4 = dataTag := rfl
  have hnotfmt : ¬(dataTag ++ (u32le data.length ++ data)).take 4 = fmtTag := by
    rw [htake]
    decide
  have hsz : readU32 (dataTag ++ (u32le data.length ++ data)) 4 = data.length := by
    have h1 : (dataTag ++ (u32le data.length ++ data)).drop 4 =
        u32le data.length ++ data := rfl
    have h2 := readU32_drop (dataTag ++ (u32le data.length ++ data)) 4 0
    rw [h1] at h2
    rw [show (4 : Nat) = 4 + 0 from rfl, ← h2, readU32_u32le, Nat.mod_eq_of_lt hL]
  have hcontent : ((dataTag ++ (u32le data.length ++ data)).drop 8).take data.length = data := by
    have h1 : (dataTag ++ (u32le data.length ++ data)).drop 8 = data := rfl
    rw [h1, List.take_length]
  have hbound : data.length ≤ 4294967296 * (ch * sw) := by
    have h1 : (4294967296 : Nat) ≤ 4294967296 * (ch * sw) :=
      Nat.le_mul_of_pos_right _ hsw
    omega
  simp only [parseChunksF]
  rw [if_neg hlen8, if_neg hnotfmt, if_pos htake, hsz, hcontent,
    List.take_of_length_le hbound]

/-- C8: for a buffer with valid format parameters (positive channels,
width between 1 and 4, positive rate, fields within the 2- and 4-byte
ranges struct.pack enforces) and whole-frame data, serialising to WAV and
loading back yields a buffer with identical channels, width, rate and
data bytes. -/
theorem wav_roundtrip (a : Audio)
    (hch : 1 ≤ a.channels)
    (hw1 : 1 ≤ a.width) (hw4 : a.width ≤ 4)
    (hr : 1 ≤ a.rate)
    (hblock : a.channels * a.width < 65536)
    (hbyte : a.channels * a.rate * a.width < 4294967296)
    (hlen : 36 + a.data.length < 4294967296)
    (hdvd : (a.channels * a.width) ∣ a.data.length) :
    ∃ bs, a.to_wav = .ok bs ∧ Audio.from_wav bs = .ok a := by
  have hch2 : a.channels < 65536 := by
    have : a.channels ≤ a.channels * a.width := Nat.le_mul_of_pos_right _ (by omega)
    omega
  have hr2 : a.rate < 4294967296 := by
    have h1 : a.rate ≤ a.channels * a.rate := Nat.le_mul_of_pos_left _ (by omega)
    have h2 : a.channels * a.rate ≤ a.channels * a.rate * a.width :=
      Nat.le_mul_of_pos_right _ (by omega)
    omega
  have hc4 : ¬(65536 ≤ a.channels ∨ 65536 ≤ a.channels * a.width ∨
      4294967296 ≤ a.rate ∨ 4294967296 ≤ a.channels * a.rate * a.width ∨
      4294967296 ≤ 36 + a.data.length) := by
    push_neg
    exact ⟨hch2, hblock, hr2, hbyte, hlen⟩
  have hL32 : a.data.length < 4294967296 := by omega
  refine ⟨wavBytes a, ?_, ?_⟩
  · unfold Audio.to_wav
    rw [if_neg (by omega), if_neg (by omega), if_neg (by omega), if_neg hc4]
  · -- facts about the fmt-chunk payload
    have hPlen : (fmtPayload a).length = 16 := by
      simp [fmtPayload, u16le, u32le]
    have hP0 : readU16 (fmtPayload a) 0 = 1 := by
      unfold fmtPayload
      rw [readU16_u16le]
    have hP2 : readU16 (fmtPayload a) 2 = a.channels := by
      unfold fmtPayload
      rw [readU16_field (u16le 1) _ 2 a.channels (by simp [u16le])]
      omega
    have hP14 : readU16 (fmtPayload a) 14 = a.width * 8 := by
      have h2 : readU16 (fmtPayload a) 14 = (a.width * 8) % 65536 :=
        readU16_field (u16le 1 ++ (u16le a.channels ++ (u32le a.rate ++
          (u32le (a.channels * a.rate * a.width) ++ u16le (a.channels * a.width))))) []
          14 (a.width * 8) (by simp [u16le, u32le])
      rw [h2]
      omega
    have hP4 : readU32 (fmtPayload a) 4 = a.rate := by
      have h2 : readU32 (fmtPayload a) 4 = a.rate % 4294967296 :=
        readU32_field (u16le 1 ++ u16le a.channels)
          (u32le (a.channels * a.rate * a.width) ++ (u16le (a.channels * a.width) ++
            u16le (a.width * 8))) 4 a.rate (by simp [u16le])
      rw [h2]
      omega
    -- the size field of the RIFF header
    have hsz : readU32 (wavBytes a) 4 = 36 + a.data.length := by
      have h2 : readU32 (wavBytes a) 4 = (36 + a.data.length) % 4294967296 :=
        readU32_field riffTag (waveTag ++ (fmtTag ++ (u32le 16 ++
          (fmtPayload a ++ (dataTag ++ (u32le a.data.length ++ a.data))))))
          4 (36 + a.data.length) (by simp [riffTag])
      rw [h2]
      omega
    -- the RIFF payload
    have hbody : ((wavBytes a).drop 8).take (readU32 (wavBytes a) 4) =
        waveTag ++ (fmtTag ++ (u32le 16 ++
          (fmtPayload a ++ (dataTag ++ (u32le a.data.length ++ a.data))))) := by
      rw [hsz]
      have hd8 : (wavBytes a).drop 8 =
          waveTag ++ (fmtTag ++ (u32le 16 ++
            (fmtPayload a ++ (dataTag ++ (u32le a.data.length ++ a.data))))) := rfl
      rw [hd8]
      refine List.take_of_length_le ?_
      simp [waveTag, fmtTag, dataTag, fmtPayload, u16le, u32le]
      omega
    have hriff : (wavBytes a).take 4 = riffTag := rfl
    have hwave : (waveTag ++ (fmtTag ++ (u32le 16 ++
        (fmtPayload a ++ (dataTag ++ (u32le a.data.length ++ a.data)))))).take 4 =
        waveTag := rfl
    unfold Audio.from_wav
    rw [if_neg (not_not_intro hriff), hbody, if_neg (not_not_intro hwave)]
    have hdrop4 : (waveTag ++ (fmtTag ++ (u32le 16 ++
        (fmtPayload a ++ (dataTag ++ (u32le a.data.length ++ a.data)))))).drop 4 =
        fmtTag ++ (u32le 16 ++
          (fmtPayload a ++ (dataTag ++ (u32le a.data.length ++ a.data)))) := rfl
    rw [hdrop4]
    have hTlen : (fmtTag ++ (u32le 16 ++
        (fmtPayload a ++ (dataTag ++ (u32le a.data.length ++ a.data))))).length =
        (31 + a.data.length) + 1 := by
      simp [fmtTag, dataTag, fmtPayload, u16le, u32le]
      omega
    rw [hTlen,
      parse_fmt_step (31 + a.data.length) none (fmtPayload a)
        (dataTag ++ (u32le a.data.length ++ a.data)) hPlen hP0,
      hP2, hP14, hP4,
      show (a.width * 8 + 7) / 8 = a.width from by omega,
      show 31 + a.data.length = (30 + a.data.length) + 1 from by omega,
      parse_data_step (30 + a.data.length) a.channels a.width a.rate a.data hL32
        (Nat.mul_pos (by omega) (by omega))]

/-- Witness for `wav_roundtrip`: a one-channel 16-bit 8 kHz buffer of two
frames survives the WAV round trip. -/
theorem wav_roundtrip_witness :
    1 ≤ (Audio.mk 1 2 8000 [1, 2, 3, 4]).channels ∧
    1 ≤ (Audio.mk 1 2 8000 [1, 2, 3, 4]).width ∧
    (Audio.mk 1 2 8000 [1, 2, 3, 4]).width ≤ 4 ∧
    1 ≤ (Audio.mk 1 2 8000 [1, 2, 3, 4]).rate ∧
    (Audio.mk 1 2 8000 [1, 2, 3, 4]).channels * (Audio.mk 1 2 8000 [1, 2, 3, 4]).width < 65536 ∧
    (Audio.mk 1 2 8000 [1, 2, 3, 4]).channels * (Audio.mk 1 2 8000 [1, 2, 3, 4]).rate *
      (Audio.mk 1 2 8000 [1, 2, 3, 4]).width < 4294967296 ∧
    36 + (Audio.mk 1 2 8000 [1, 2, 3, 4]).data.length < 4294967296 ∧
    ((Audio.mk 1 2 8000 [1, 2, 3, 4]).channels * (Audio.mk 1 2 8000 [1, 2, 3, 4]).width) ∣
      (Audio.mk 1 2 8000 [1, 2, 3, 4]).data.length ∧
    (∃ bs, (Audio.mk 1 2 8000 [1, 2, 3, 4]).to_wav = .ok bs ∧
      Audio.from_wav bs = .ok (Audio.mk 1 2 8000 [1, 2, 3, 4])) :=
  ⟨by decide, by decide, by decide, by decide, by decide, by decide, by decide, by decide,
    wav_roundtrip (Audio.mk 1 2 8000 [1, 2, 3, 4]) (by decide) (by decide) (by decide)
      (by decide) (by decide) (by decide) (by decide) (by decide)⟩
